import Mathlib

/-!
Shallow embedding of `src/app/static/script.js` (SlciAdmin/complete_chatbot):
the chat-session state machine (`startNewSession`, `sendChatMessage`), the
message renderer (`addMessageToChatbox` with its img-tag strip and trim), the
table card (`addTableToChat` with its `JSON.stringify` datasets), and the PDF
exporter (`downloadTableAsPDF`).  DOM state is modelled as an explicit record;
the remote call is modelled by a `NetOutcome` parameter; the jsPDF drawing
API is modelled as a trace of drawing operations with an environment that can
make any call throw.
-/

namespace Chatbot

/-! ## JSON values

The fragment of JSON that `JSON.stringify` / `JSON.parse` exercise in the
script: null, strings, arrays and objects (the datasets stored on the PDF
button hold an array-of-arrays-of-strings and a meta object or null).
`obj` models a JS object as its key/value list in insertion order, which is
how `JSON.parse` and `JSON.stringify` treat string (non-array-index) keys. -/

inductive Json where
  | null : Json
  | str : String → Json
  | arr : List Json → Json
  | obj : List (String × Json) → Json

/-- Lowercase hex digit, as `JSON.stringify` emits in escapes. -/
def hexDigitChar (n : Nat) : Char :=
  if n < 10 then Char.ofNat (48 + n) else Char.ofNat (87 + n)

/-- How `JSON.stringify` escapes one character of a string: quote and
backslash get a backslash escape, the five short control escapes are used
when they apply, any other control character becomes a 4-digit hex escape,
and everything else passes through unescaped. -/
def escChar (c : Char) : List Char :=
  if c = '"' then ['\\', '"']
  else if c = '\\' then ['\\', '\\']
  else if c = '\x08' then ['\\', 'b']
  else if c = '\t' then ['\\', 't']
  else if c = '\n' then ['\\', 'n']
  else if c = '\x0c' then ['\\', 'f']
  else if c = '\r' then ['\\', 'r']
  else if c.toNat < 32 then
    ['\\', 'u', '0', '0', hexDigitChar (c.toNat / 16), hexDigitChar (c.toNat % 16)]
  else [c]

/-- A JSON string literal: quote, escaped body, quote. -/
def quoteStr (s : List Char) : List Char :=
  '"' :: (s.map escChar).flatten ++ ['"']

mutual

/-- The characters `JSON.stringify` produces for a value (it emits no
whitespace). -/
def jStr : Json → List Char
  | .null => ['n', 'u', 'l', 'l']
  | .str s => quoteStr s.data
  | .arr xs => '[' :: jStrElems xs ++ [']']
  | .obj kvs => '{' :: jStrMembs kvs ++ ['}']

/-- Array elements joined by commas. -/
def jStrElems : List Json → List Char
  | [] => []
  | [x] => jStr x
  | x :: y :: xs => jStr x ++ ',' :: jStrElems (y :: xs)

/-- Object members `"key":value` joined by commas. -/
def jStrMembs : List (String × Json) → List Char
  | [] => []
  | [(k, v)] => quoteStr k.data ++ ':' :: jStr v
  | (k, v) :: m :: kvs => quoteStr k.data ++ ':' :: jStr v ++ ',' :: jStrMembs (m :: kvs)

end

def jsonStringify (v : Json) : String := String.mk (jStr v)

/-- Numeric value of a hex digit (`JSON.parse` accepts both cases). -/
def hexVal (c : Char) : Option Nat :=
  if 48 ≤ c.toNat ∧ c.toNat ≤ 57 then some (c.toNat - 48)
  else if 97 ≤ c.toNat ∧ c.toNat ≤ 102 then some (c.toNat - 87)
  else if 65 ≤ c.toNat ∧ c.toNat ≤ 70 then some (c.toNat - 55)
  else none

/-- Parse the body of a JSON string literal after its opening quote:
returns the decoded characters and the input after the closing quote. -/
def parseStrBody : List Char → Option (List Char × List Char)
  | [] => none
  | c :: rest =>
    if c = '"' then some ([], rest)
    else if c = '\\' then
      match rest with
      | [] => none
      | e :: rest2 =>
        if e = '"' then (parseStrBody rest2).map fun p => ('"' :: p.1, p.2)
        else if e = '\\' then (parseStrBody rest2).map fun p => ('\\' :: p.1, p.2)
        else if e = '/' then (parseStrBody rest2).map fun p => ('/' :: p.1, p.2)
        else if e = 'b' then (parseStrBody rest2).map fun p => ('\x08' :: p.1, p.2)
        else if e = 't' then (parseStrBody rest2).map fun p => ('\t' :: p.1, p.2)
        else if e = 'n' then (parseStrBody rest2).map fun p => ('\n' :: p.1, p.2)
        else if e = 'f' then (parseStrBody rest2).map fun p => ('\x0c' :: p.1, p.2)
        else if e = 'r' then (parseStrBody rest2).map fun p => ('\r' :: p.1, p.2)
        else if e = 'u' then
          match rest2 with
          | h1 :: h2 :: h3 :: h4 :: rest3 =>
            match hexVal h1, hexVal h2, hexVal h3, hexVal h4 with
            | some a, some b, some c2, some d =>
              (parseStrBody rest3).map fun p =>
                (Char.ofNat (((a * 16 + b) * 16 + c2) * 16 + d) :: p.1, p.2)
            | _, _, _, _ => none
          | _ => none
        else none
    else (parseStrBody rest).map fun p => (c :: p.1, p.2)

mutual

/-- Recursive-descent value parser modelling `JSON.parse` on the fragment
above (inputs produced by `jStr` carry no whitespace, so no skipping is
needed).  `fuel` bounds the recursion depth; `jsonParse` supplies enough. -/
def parseVal : Nat → List Char → Option (Json × List Char)
  | 0, _ => none
  | _ + 1, [] => none
  | fuel + 1, c :: l =>
    if c = '"' then
      (parseStrBody l).map fun p => (Json.str (String.mk p.1), p.2)
    else if c = '[' then
      match l with
      | ']' :: rest => some (Json.arr [], rest)
      | _ => (parseElems fuel l).map fun p => (Json.arr p.1, p.2)
    else if c = '{' then
      match l with
      | '}' :: rest => some (Json.obj [], rest)
      | _ => (parseMembs fuel l).map fun p => (Json.obj p.1, p.2)
    else
      match c :: l with
      | 'n' :: 'u' :: 'l' :: 'l' :: rest => some (Json.null, rest)
      | _ => none

/-- One or more comma-separated array elements, then the closing bracket. -/
def parseElems : Nat → List Char → Option (List Json × List Char)
  | 0, _ => none
  | fuel + 1, l =>
    match parseVal fuel l with
    | none => none
    | some (v, rest) =>
      match rest with
      | ',' :: rest2 => (parseElems fuel rest2).map fun p => (v :: p.1, p.2)
      | ']' :: rest2 => some ([v], rest2)
      | _ => none

/-- One or more comma-separated object members, then the closing brace. -/
def parseMembs : Nat → List Char → Option (List (String × Json) × List Char)
  | 0, _ => none
  | fuel + 1, l =>
    match l with
    | '"' :: rest =>
      match parseStrBody rest with
      | none => none
      | some (k, rest1) =>
        match rest1 with
        | ':' :: rest2 =>
          match parseVal fuel rest2 with
          | none => none
          | some (v, rest3) =>
            match rest3 with
            | ',' :: rest4 => (parseMembs fuel rest4).map fun p => ((String.mk k, v) :: p.1, p.2)
            | '}' :: rest4 => some ([(String.mk k, v)], rest4)
            | _ => none
        | _ => none
    | _ => none

end

/-- Model of `JSON.parse`: a complete value consuming the whole input. -/
def jsonParse (s : String) : Option Json :=
  match parseVal (s.data.length + 1) s.data with
  | some (v, []) => some v
  | _ => none

mutual

/-- Fuel bound used to show `jsonParse` gives `parseVal` enough fuel: a
value costs one unit plus the cost of its children, one extra unit per
element or member. -/
def sizeJ : Json → Nat
  | .null => 1
  | .str _ => 1
  | .arr xs => 1 + sizeElems xs
  | .obj kvs => 1 + sizeMembs kvs

def sizeElems : List Json → Nat
  | [] => 0
  | x :: xs => 1 + sizeJ x + sizeElems xs

def sizeMembs : List (String × Json) → Nat
  | [] => 0
  | kv :: kvs => 1 + sizeJ kv.2 + sizeMembs kvs

end

/-! ## The message renderer's sanitization

`addMessageToChatbox` sets `innerHTML = text.replace(/<img[^>]*>/g, '').trim()`.
The regex replace is one left-to-right scan: at each position, if
`<img` followed by any run of non `>` characters and then `>` matches, the
match is removed and scanning resumes after it; otherwise the character is
kept and scanning advances one position. -/

/-- Index of the first `>` in the list (the extent of the regex's greedy
`[^>]*` followed by `>`). -/
def gtIdx : List Char → Option Nat
  | [] => none
  | c :: rest => if c = '>' then some 0 else (gtIdx rest).map (· + 1)

/-- Whether the input begins with the literal characters `<img`; returns
what follows them. -/
def imgAt (l : List Char) : Option (List Char) :=
  if l.take 4 = ['<', 'i', 'm', 'g'] then some (l.drop 4) else none

/-- The single scan of `replace(/<img[^>]*>/g, '')`.  Fuel is spent one unit
per position; `stripImg` supplies the input length, which suffices because
every step consumes at least one character. -/
def stripImgAux : Nat → List Char → List Char
  | 0, l => l
  | _ + 1, [] => []
  | fuel + 1, c :: rest =>
    match imgAt (c :: rest) with
    | some rest4 =>
      match gtIdx rest4 with
      | some i => stripImgAux fuel (rest4.drop (i + 1))
      | none => c :: stripImgAux fuel rest
    | none => c :: stripImgAux fuel rest

def stripImg (l : List Char) : List Char := stripImgAux l.length l

/-- The whitespace set of JS `String.prototype.trim` (WhiteSpace and
LineTerminator code points). -/
def isJsWhitespace (c : Char) : Bool :=
  c.toNat = 9 || c.toNat = 10 || c.toNat = 11 || c.toNat = 12 || c.toNat = 13 ||
  c.toNat = 32 || c.toNat = 160 || c.toNat = 5760 ||
  (8192 ≤ c.toNat && c.toNat ≤ 8202) || c.toNat = 8232 || c.toNat = 8233 ||
  c.toNat = 8239 || c.toNat = 8287 || c.toNat = 12288 || c.toNat = 65279

/-- JS `trim()`: drop leading and trailing whitespace. -/
def trimChars (l : List Char) : List Char :=
  ((l.dropWhile isJsWhitespace).reverse.dropWhile isJsWhitespace).reverse

def trimString (s : String) : String := String.mk (trimChars s.data)

/-- What `addMessageToChatbox` assigns to the bubble's `innerHTML`:
`text.replace(/<img[^>]*>/g, '').trim()`. -/
def processContent (text : String) : String :=
  String.mk (trimChars (stripImg text.data))

/-! ## Data model of the chat session -/

inductive Sender where
  | user : Sender
  | bot : Sender
deriving DecidableEq, Repr

/-- The meta sidecar of a table reply, with the wire field names. -/
structure Meta where
  state : String
  act_name : String
  da : String
  effective_from : String
  pdf_url : Option String
deriving DecidableEq, Repr

/-- The JSON object `JSON.parse` yields for a meta payload: the four string
fields in wire order, and `pdf_url` only when present. -/
def metaJson (m : Meta) : Json :=
  Json.obj ([("state", Json.str m.state), ("act_name", Json.str m.act_name),
    ("da", Json.str m.da), ("effective_from", Json.str m.effective_from)] ++
    (match m.pdf_url with
     | some u => [("pdf_url", Json.str u)]
     | none => []))

/-- `data.meta || null` as stored on the button: the meta object, or JSON
null when absent. -/
def metaJsonOpt (m : Option Meta) : Json :=
  match m with
  | some mv => metaJson mv
  | none => Json.null

/-- The JSON array-of-arrays-of-strings of a table payload. -/
def jsonOfTable (t : List (List String)) : Json :=
  Json.arr (t.map fun row => Json.arr (row.map Json.str))

/-- One node appended to the chat box: a message bubble (with the wrapper id
`addMessageToChatbox` gives the typing indicator), or the wage-table card,
which carries the rendered table data and meta plus the two
`JSON.stringify` dataset strings captured for the PDF button. -/
inductive Entry where
  | msg : Sender → String → Option String → Entry
  | card : List (List String) → Option Meta → String → String → Entry
deriving DecidableEq, Repr

def typingId : String := "typing-indicator-wrapper"

def isTypingEntry : Entry → Bool
  | .msg _ _ (some i) => i = typingId
  | _ => false

def isUserEntry : Entry → Bool
  | .msg .user _ _ => true
  | _ => false

/-- `removeTypingIndicator`: `getElementById` finds the first element with
the id and removes it. -/
def removeTyping : List Entry → List Entry
  | [] => []
  | e :: rest => if isTypingEntry e then rest else e :: removeTyping rest

/-- The page state the script mutates: the chat box's children, the session
id, whether the category quick-action buttons are shown, the input field's
value, and the `(message, session_id)` bodies sent to the `/chat` endpoint. -/
structure ChatState where
  chatBox : List Entry
  sessionId : Option String
  categoryShown : Bool
  inputValue : String
  requests : List (String × String)
deriving DecidableEq, Repr

/-- `addMessageToChatbox(text, sender, id)`: unless the message being added
is the typing indicator itself, remove any existing typing indicator, then
append the bubble with the sanitized content. -/
def addMessageToChatbox (text : String) (sender : Sender) (id : Option String)
    (st : ChatState) : ChatState :=
  let log := if id ≠ some typingId then removeTyping st.chatBox else st.chatBox
  { st with chatBox := log ++ [Entry.msg sender (processContent text) id] }

def greeting : String :=
  "Hello! I'm the SLCI assistant (Tara). How can I help you today?"

def apology : String :=
  "Sorry, I'm having trouble connecting. Please try again."

/-- `startNewSession`: clear the chat box, mint `"session_" + Date.now()`,
show the category buttons, and append the greeting. `now` stands for
`Date.now()`. -/
def startNewSession (now : Nat) (st : ChatState) : ChatState :=
  addMessageToChatbox greeting .bot none
    { st with
      chatBox := [],
      sessionId := some ("session_" ++ toString now),
      categoryShown := true }

/-- `addTableToChat(tableData, meta)`: append the wage card; the PDF
button's datasets capture `JSON.stringify` of both arguments. -/
def addTableToChat (tableData : List (List String)) (meta : Option Meta)
    (st : ChatState) : ChatState :=
  { st with chatBox := st.chatBox ++
      [Entry.card tableData meta (jsonStringify (jsonOfTable tableData))
        (jsonStringify (metaJsonOpt meta))] }

/-- The arguments the PDF button's click handler passes to
`downloadTableAsPDF`: `JSON.parse` of the two datasets captured at render
time. -/
def pdfClickArgs : Entry → Option (Option Json × Option Json)
  | .card _ _ dsTable dsMeta => some (jsonParse dsTable, jsonParse dsMeta)
  | _ => none

/-- The parsed shape of a successful `/chat` response body as the script
inspects it: an optional table, an optional reply string, an optional meta
object. -/
structure ChatData where
  table : Option (List (List String))
  reply : Option String
  meta : Option Meta
deriving DecidableEq, Repr

/-- How the awaited remote call resolves: a network error from `fetch`, a
non-ok status (the code throws), a body `response.json()` cannot parse (the
promise rejects), or parsed data. The first three all land in the `catch`. -/
inductive NetOutcome where
  | netError : NetOutcome
  | badStatus : NetOutcome
  | parseError : NetOutcome
  | ok : ChatData → NetOutcome

/-- The text-reply branch: `if (data.reply && data.reply.trim() !== "")`. -/
def routeReply (d : ChatData) (st : ChatState) : ChatState :=
  match d.reply with
  | some r => if trimString r ≠ "" then addMessageToChatbox r .bot none st else st
  | none => st

/-- `sendChatMessage` run to completion with the remote call resolving as
`outcome`.  Empty trimmed input returns immediately; otherwise: start a
session if none, hide the category buttons, append the user bubble, clear
the input, append the typing indicator, issue the request, then on success
remove the indicator and route (table first, else non-blank reply, else
nothing), and on any failure remove the indicator and append the apology. -/
def sendChatMessage (now : Nat) (outcome : NetOutcome) (st : ChatState) : ChatState :=
  let userText := trimString st.inputValue
  if userText = "" then st
  else
    let st1 := if st.sessionId = none then startNewSession now st else st
    let st2 := { st1 with categoryShown := false }
    let st3 := addMessageToChatbox userText .user none st2
    let st4 := { st3 with inputValue := "" }
    let st5 := addMessageToChatbox "Typing..." .bot (some typingId) st4
    let st6 := { st5 with requests := st5.requests ++ [(userText, st5.sessionId.getD "")] }
    match outcome with
    | .ok d =>
      let st7 := { st6 with chatBox := removeTyping st6.chatBox }
      match d.table with
      | some t => if t.length > 0 then addTableToChat t d.meta st7 else routeReply d st7
      | none => routeReply d st7
    | _ =>
      let st7 := { st6 with chatBox := removeTyping st6.chatBox }
      addMessageToChatbox apology .bot none st7

/-- The state right after the pre-routing steps of a non-empty send in a
state that already has session `sid` and no typing indicator: category
buttons hidden, the user bubble appended, the input cleared, the request
issued, and the typing indicator already added and removed again. -/
def postSendState (st : ChatState) (sid : String) : ChatState :=
  { chatBox := st.chatBox ++
      [Entry.msg .user (processContent (trimString st.inputValue)) none],
    sessionId := st.sessionId,
    categoryShown := false,
    inputValue := "",
    requests := st.requests ++ [(trimString st.inputValue, sid)] }

/-! ## The PDF exporter

`downloadTableAsPDF` is a straight-line sequence of jsPDF calls inside a
try/catch.  The drawing API is opaque: we record each completed call as a
`PdfOp`.  The library value `doc.lastAutoTable.finalY` is an input of the
model (`finalY`), and `throwsAt i` says whether the i-th call throws. -/

inductive PdfOp where
  | setFontSize : Nat → PdfOp
  | setTextColor : Nat → Nat → Nat → PdfOp
  | text : String → Nat → Nat → PdfOp
  | textWrapped : String → Nat → Nat → Nat → PdfOp
  | autoTable : List (List String) → List (List String) → Nat → Nat →
      Nat × Nat × Nat → PdfOp
  | save : String → PdfOp
deriving DecidableEq, Repr

def companyTitle : String := "Shakti Legal Compliance India (SLCI)"

def reportTitle : String := "Minimum Wage Details Report"

def disclaimer : String :=
  "Disclaimer: This data is fetched automatically via API. Please verify with official State Labour Department website or government published PDF."

/-- The saved filename: `Wage_Details_` + (`meta?.state || ""`) + `.pdf`
(an empty `state` and an absent meta both yield the empty middle). -/
def pdfFileName (meta : Option Meta) : String :=
  "Wage_Details_" ++ (match meta with | some m => m.state | none => "") ++ ".pdf"

/-- The jsPDF calls `downloadTableAsPDF` makes, in order, for the given
arguments: titles at y 12 and 22, the optional meta block from y 30 (its
lines advance y by 6, the notification line by 10), the autoTable starting
at the y the cursor reached, and the disclaimer 12 below the table's final
y.  `tableData.headD []` stands for `tableData[0]`, which the callers only
reach with at least one row. -/
def exportDrawOps (tableData : List (List String)) (meta : Option Meta)
    (finalY : Nat) : List PdfOp :=
  let metaOps : List PdfOp :=
    match meta with
    | none => []
    | some m =>
      [PdfOp.setFontSize 11,
       PdfOp.text ("State: " ++ m.state) 14 30,
       PdfOp.text ("Effective From: " ++ m.effective_from) 14 36] ++
      (match m.pdf_url with
       | some u =>
         [PdfOp.setTextColor 0 0 255,
          PdfOp.text ("Govt Notification PDF: " ++ u) 14 42,
          PdfOp.setTextColor 0 0 0]
       | none => [])
  let startY : Nat :=
    match meta with
    | none => 30
    | some m => match m.pdf_url with | some _ => 52 | none => 42
  [PdfOp.setFontSize 18, PdfOp.setTextColor 0 100 0,
   PdfOp.text companyTitle 14 12,
   PdfOp.setFontSize 15, PdfOp.setTextColor 0 0 0,
   PdfOp.text reportTitle 14 22] ++
  metaOps ++
  [PdfOp.autoTable [tableData.headD []] tableData.tail startY 9 (16, 185, 129),
   PdfOp.setFontSize 10, PdfOp.setTextColor 180 0 0,
   PdfOp.textWrapped disclaimer 14 (finalY + 12) 180]

/-- All the jsPDF calls of one `downloadTableAsPDF` run: the drawing calls,
then `doc.save` with the derived filename. -/
def exportOps (tableData : List (List String)) (meta : Option Meta)
    (finalY : Nat) : List PdfOp :=
  exportDrawOps tableData meta finalY ++ [PdfOp.save (pdfFileName meta)]

/-- Run the calls in order from index `i`: the completed prefix, and whether
one threw (stopping execution there). -/
def runOpsAux (throwsAt : Nat → Bool) (i : Nat) : List PdfOp → List PdfOp × Bool
  | [] => ([], false)
  | op :: rest =>
    if throwsAt i then ([], true)
    else
      let p := runOpsAux throwsAt (i + 1) rest
      (op :: p.1, p.2)

/-- What a run of `downloadTableAsPDF` leaves behind: the completed jsPDF
calls, and how many alerts and console errors the catch produced. -/
structure ExportResult where
  executed : List PdfOp
  alerts : Nat
  errorsLogged : Nat
deriving DecidableEq, Repr

/-- `downloadTableAsPDF(tableData, meta)` under the drawing environment:
all calls run inside one try/catch; a throw aborts the sequence, logs the
error and raises exactly one alert. -/
def downloadTableAsPDF (tableData : List (List String)) (meta : Option Meta)
    (finalY : Nat) (throwsAt : Nat → Bool) : ExportResult :=
  let ops := exportOps tableData meta finalY
  let p := runOpsAux throwsAt 0 ops
  if p.2 then { executed := p.1, alerts := 1, errorsLogged := 1 }
  else { executed := p.1, alerts := 0, errorsLogged := 0 }

/-! ## Derived counts used by the claims -/

def typingCount (log : List Entry) : Nat := log.countP isTypingEntry

def userCount (log : List Entry) : Nat := log.countP isUserEntry

/-- Whether the scan position begins an img-tag match of `/<img[^>]*>/`. -/
def startsImgTag (l : List Char) : Bool :=
  match imgAt l with
  | some rest => (gtIdx rest).isSome
  | none => false

/-- Whether some position of the text begins an img-tag match. -/
def hasImgTag : List Char → Bool
  | [] => false
  | c :: rest => startsImgTag (c :: rest) || hasImgTag rest

/-- Whether the literal characters `<img` occur anywhere. -/
def hasImgHead : List Char → Bool
  | [] => false
  | c :: rest => (imgAt (c :: rest)).isSome || hasImgHead rest

/-! ## Helper lemmas -/

theorem removeTyping_of_no_typing : ∀ {l : List Entry}, typingCount l = 0 →
    removeTyping l = l := by
  intro l h
  induction l with
  | nil => rfl
  | cons e rest ih =>
    rw [typingCount, List.countP_cons] at h
    have he : isTypingEntry e = false := by
      by_contra hc
      simp only [Bool.not_eq_false] at hc
      simp [hc] at h
    have hrest : typingCount rest = 0 := by
      rw [typingCount]; omega
    simp [removeTyping, he, ih hrest]

theorem removeTyping_append_of_no_typing : ∀ {l : List Entry} (m : List Entry),
    typingCount l = 0 → removeTyping (l ++ m) = l ++ removeTyping m := by
  intro l
  induction l with
  | nil => intro m _; rfl
  | cons e rest ih =>
    intro m h
    rw [typingCount, List.countP_cons] at h
    have he : isTypingEntry e = false := by
      by_contra hc
      simp only [Bool.not_eq_false] at hc
      simp [hc] at h
    have hrest : typingCount rest = 0 := by
      rw [typingCount]; omega
    simp [removeTyping, he, ih m hrest]

theorem isTypingEntry_typing :
    isTypingEntry (Entry.msg .bot (processContent "Typing...") (some typingId)) = true := by
  decide

theorem runOpsAux_noThrow (f : Nat → Bool) (hf : ∀ k, f k = false) :
    ∀ (ops : List PdfOp) (i : Nat), runOpsAux f i ops = (ops, false) := by
  intro ops
  induction ops with
  | nil => intro i; rfl
  | cons op rest ih =>
    intro i
    simp [runOpsAux, hf i, ih (i + 1)]

theorem runOpsAux_threw (f : Nat → Bool) :
    ∀ (ops : List PdfOp) (i : Nat), (∃ k, k < ops.length ∧ f (i + k) = true) →
      (runOpsAux f i ops).2 = true := by
  intro ops
  induction ops with
  | nil => intro i ⟨k, hk, _⟩; simp at hk
  | cons op rest ih =>
    intro i ⟨k, hk, hfk⟩
    by_cases hi : f i = true
    · simp [runOpsAux, hi]
    · have hk0 : k ≠ 0 := by
        intro h0; rw [h0, Nat.add_zero] at hfk; exact hi hfk
      obtain ⟨k2, rfl⟩ := Nat.exists_eq_succ_of_ne_zero hk0
      have : (runOpsAux f (i + 1) rest).2 = true := by
        apply ih
        refine ⟨k2, by simpa using hk, ?_⟩
        rw [show i + 1 + k2 = i + k2.succ by omega]
        exact hfk
      simp [runOpsAux, hi, this]

theorem runOpsAux_mem_of_threw (f : Nat → Bool) :
    ∀ (ops : List PdfOp) (i : Nat) (op : PdfOp), (runOpsAux f i ops).2 = true →
      op ∈ (runOpsAux f i ops).1 → op ∈ ops.dropLast := by
  intro ops
  induction ops with
  | nil => intro i op h; simp [runOpsAux] at h
  | cons op0 rest ih =>
    intro i op hthrew hmem
    by_cases hi : f i = true
    · simp [runOpsAux, hi] at hmem
    · simp only [runOpsAux, hi, Bool.false_eq_true, if_false] at hthrew hmem
      cases rest with
      | nil => simp [runOpsAux] at hthrew
      | cons r rs =>
        rw [List.dropLast_cons₂]
        rcases List.mem_cons.mp hmem with h0 | h1
        · exact h0 ▸ List.mem_cons_self _ _
        · exact List.mem_cons_of_mem _ (ih (i + 1) op hthrew h1)

theorem save_not_mem_drawOps (t : List (List String)) (m : Option Meta)
    (fy : Nat) (s : String) : PdfOp.save s ∉ exportDrawOps t m fy := by
  match m with
  | none => simp [exportDrawOps]
  | some mv =>
    match h : mv.pdf_url with
    | none => simp [exportDrawOps, h]
    | some u => simp [exportDrawOps, h]

theorem sendMessage_ok_spec (now : Nat) (d : ChatData) (st : ChatState) (sid : String)
    (hsid : st.sessionId = some sid) (htrim : ¬ trimString st.inputValue = "")
    (htyping : typingCount st.chatBox = 0) :
    sendChatMessage now (NetOutcome.ok d) st =
      (match d.table with
       | some t =>
         if t.length > 0 then addTableToChat t d.meta (postSendState st sid)
         else routeReply d (postSendState st sid)
       | none => routeReply d (postSendState st sid)) := by
  simp only [sendChatMessage, addMessageToChatbox]
  rw [if_neg htrim, hsid]
  simp only [if_neg (by simp : ¬((some sid : Option String) = none))]
  simp only [ne_eq, reduceCtorEq, not_false_eq_true, if_pos, Option.some.injEq,
    String.reduceEq, ite_true, ite_false, not_true_eq_false]
  rw [removeTyping_of_no_typing htyping, hsid, List.append_assoc,
      removeTyping_append_of_no_typing _ htyping]
  simp only [Option.getD_some, List.singleton_append, removeTyping, isTypingEntry,
    typingId, String.reduceEq, ite_false, ite_true, reduceIte]
  simp only [Bool.false_eq_true, if_false, decide_True, if_true, List.nil_append,
    List.append_nil, postSendState]
  rw [← hsid]

theorem sendMessage_catch_spec (now : Nat) (outcome : NetOutcome) (st : ChatState)
    (sid : String)
    (hout : outcome = NetOutcome.netError ∨ outcome = NetOutcome.badStatus ∨
      outcome = NetOutcome.parseError)
    (hsid : st.sessionId = some sid) (htrim : ¬ trimString st.inputValue = "")
    (htyping : typingCount st.chatBox = 0) :
    sendChatMessage now outcome st =
      addMessageToChatbox apology .bot none (postSendState st sid) := by
  have main : ∀ o, (match o with | NetOutcome.ok _ => False | _ => True) →
      sendChatMessage now o st =
        addMessageToChatbox apology .bot none (postSendState st sid) := by
    intro o ho
    simp only [sendChatMessage, addMessageToChatbox]
    rw [if_neg htrim, hsid]
    simp only [if_neg (by simp : ¬((some sid : Option String) = none))]
    simp only [ne_eq, reduceCtorEq, not_false_eq_true, if_pos, Option.some.injEq,
      String.reduceEq, ite_true, ite_false, not_true_eq_false]
    rw [removeTyping_of_no_typing htyping, hsid, List.append_assoc,
        removeTyping_append_of_no_typing _ htyping]
    simp only [Option.getD_some, List.singleton_append, removeTyping, isTypingEntry,
      typingId, String.reduceEq, ite_false, ite_true, reduceIte]
    simp only [Bool.false_eq_true, if_false, decide_True, if_true, List.nil_append,
      List.append_nil, postSendState]
    rw [← hsid]
    cases o with
    | ok dd => exact absurd ho (by simp)
    | netError => rfl
    | badStatus => rfl
    | parseError => rfl
  rcases hout with h | h | h <;> rw [h] <;> exact main _ trivial

theorem typingCount_postSend (st : ChatState) (sid : String) :
    typingCount (postSendState st sid).chatBox = typingCount st.chatBox := by
  simp [postSendState, typingCount, List.countP_append, List.countP_cons,
    isTypingEntry]

theorem userCount_postSend (st : ChatState) (sid : String) :
    userCount (postSendState st sid).chatBox = userCount st.chatBox + 1 := by
  simp [postSendState, userCount, List.countP_append, List.countP_cons, isUserEntry]

theorem counts_addBotMsg (text : String) (id : Option String)
    (hid : id = none) (st : ChatState) (htyping : typingCount st.chatBox = 0) :
    userCount (addMessageToChatbox text .bot id st).chatBox = userCount st.chatBox ∧
    typingCount (addMessageToChatbox text .bot id st).chatBox = 0 := by
  subst hid
  simp only [addMessageToChatbox]
  rw [if_pos (by simp)]
  rw [removeTyping_of_no_typing htyping]
  constructor
  · simp [userCount, List.countP_append, List.countP_cons, isUserEntry]
  · rw [typingCount, List.countP_append]
    have h1 : List.countP isTypingEntry st.chatBox = 0 := htyping
    have h2 : List.countP isTypingEntry
        [Entry.msg Sender.bot (processContent text) none] = 0 := by
      simp [List.countP_cons, List.countP_nil, isTypingEntry]
    omega

theorem counts_routeReply (d : ChatData) (st : ChatState)
    (htyping : typingCount st.chatBox = 0) :
    userCount (routeReply d st).chatBox = userCount st.chatBox ∧
    typingCount (routeReply d st).chatBox = 0 := by
  rcases hd : d.reply with _ | r
  · simp only [routeReply, hd]
    exact ⟨by simp, htyping⟩
  · simp only [routeReply, hd]
    by_cases hr : trimString r ≠ ""
    · rw [if_pos hr]
      exact counts_addBotMsg r none rfl st htyping
    · rw [if_neg hr]
      exact ⟨by simp, htyping⟩

theorem counts_addTable (t : List (List String)) (m : Option Meta) (st : ChatState)
    (htyping : typingCount st.chatBox = 0) :
    userCount (addTableToChat t m st).chatBox = userCount st.chatBox ∧
    typingCount (addTableToChat t m st).chatBox = 0 := by
  unfold addTableToChat
  constructor
  · rw [userCount, List.countP_append]
    have h2 : List.countP isUserEntry [Entry.card t m (jsonStringify (jsonOfTable t))
        (jsonStringify (metaJsonOpt m))] = 0 := by
      simp [List.countP_cons, List.countP_nil, isUserEntry]
    rw [userCount]
    omega
  · rw [typingCount, List.countP_append]
    have h1 : List.countP isTypingEntry st.chatBox = 0 := htyping
    have h2 : List.countP isTypingEntry [Entry.card t m (jsonStringify (jsonOfTable t))
        (jsonStringify (metaJsonOpt m))] = 0 := by
      simp [List.countP_cons, List.countP_nil, isTypingEntry]
    omega


theorem stripImgAux_nil : ∀ f, stripImgAux f [] = [] := by
  intro f; cases f <;> rfl

theorem imgAt_some {l r : List Char} (h : imgAt l = some r) :
    l = '<' :: 'i' :: 'm' :: 'g' :: r := by
  unfold imgAt at h
  by_cases hc : l.take 4 = ['<', 'i', 'm', 'g']
  · rw [if_pos hc] at h
    injection h with h2
    subst h2
    conv_lhs => rw [← List.take_append_drop 4 l]
    rw [hc]
    rfl
  · rw [if_neg hc] at h
    cases h

theorem imgAt_some_length {l r : List Char} (h : imgAt l = some r) :
    l.length = r.length + 4 := by
  rw [imgAt_some h]; simp

theorem stripImgAux_fuel : ∀ (f1 : Nat) (l : List Char) (f2 : Nat),
    l.length ≤ f1 → l.length ≤ f2 → stripImgAux f1 l = stripImgAux f2 l := by
  intro f1
  induction f1 with
  | zero =>
    intro l f2 h1 _
    have hl : l = [] := List.length_eq_zero.mp (Nat.le_zero.mp h1)
    subst hl
    rw [stripImgAux_nil, stripImgAux_nil]
  | succ f ih =>
    intro l f2 h1 h2
    cases l with
    | nil => rw [stripImgAux_nil, stripImgAux_nil]
    | cons c rest =>
      cases f2 with
      | zero => simp at h2
      | succ g =>
        simp only [stripImgAux]
        cases him : imgAt (c :: rest) with
        | none =>
          have hr : rest.length ≤ f := by simp at h1; omega
          have hr2 : rest.length ≤ g := by simp at h2; omega
          simp only [ih rest g hr hr2]
        | some rest4 =>
          have hl4 := imgAt_some_length him
          cases hg : gtIdx rest4 with
          | some i =>
            have hd : (rest4.drop (i + 1)).length ≤ f := by
              simp only [List.length_drop]
              simp only [List.length_cons] at h1 hl4
              omega
            have hd2 : (rest4.drop (i + 1)).length ≤ g := by
              simp only [List.length_drop]
              simp only [List.length_cons] at h2 hl4
              omega
            simp only [hg, ih (rest4.drop (i + 1)) g hd hd2]
          | none =>
            have hr : rest.length ≤ f := by simp at h1; omega
            have hr2 : rest.length ≤ g := by simp at h2; omega
            simp only [hg, ih rest g hr hr2]


theorem gtIdx_append {mid : List Char} (r : List Char) (hm : '>' ∉ mid) :
    gtIdx (mid ++ '>' :: r) = some mid.length := by
  induction mid with
  | nil => simp [gtIdx]
  | cons c m ih =>
    have hc : ¬ c = '>' := fun h => hm (by rw [h]; exact List.mem_cons_self _ _)
    have hm2 : '>' ∉ m := fun h => hm (List.mem_cons_of_mem _ h)
    simp [gtIdx, hc, ih hm2]

theorem drop_append_gt (mid r : List Char) :
    (mid ++ '>' :: r).drop (mid.length + 1) = r := by
  rw [show mid ++ '>' :: r = (mid ++ ['>']) ++ r by simp]
  rw [show mid.length + 1 = (mid ++ ['>']).length by simp]
  simp

theorem stripImg_cons_none {c : Char} {rest : List Char}
    (h : imgAt (c :: rest) = none) : stripImg (c :: rest) = c :: stripImg rest := by
  show stripImgAux (rest.length + 1) (c :: rest) = _
  simp only [stripImgAux, h]
  rfl

theorem stripImg_tag (mid r : List Char) (hm : '>' ∉ mid) :
    stripImg ('<' :: 'i' :: 'm' :: 'g' :: (mid ++ '>' :: r)) = stripImg r := by
  have h1 : imgAt ('<' :: 'i' :: 'm' :: 'g' :: (mid ++ '>' :: r)) =
      some (mid ++ '>' :: r) := rfl
  show stripImgAux ((mid ++ '>' :: r).length + 4) _ = _
  simp only [stripImgAux, h1, gtIdx_append r hm, drop_append_gt]
  apply stripImgAux_fuel
  · simp only [List.length_append, List.length_cons]
    omega
  · exact Nat.le_refl _

theorem imgAt_append_none {a : Char} {p : List Char}
    (h : (imgAt (a :: p)).isSome = false) {X : List Char} {x4 : List Char}
    (hX : X = '<' :: 'i' :: 'm' :: 'g' :: x4) :
    imgAt (a :: (p ++ X)) = none := by
  subst hX
  have hcond : ¬ (a :: p).take 4 = ['<', 'i', 'm', 'g'] := by
    intro hc
    rw [imgAt, if_pos hc] at h
    simp at h
  unfold imgAt
  rw [if_neg ?hc2]
  case hc2 =>
    rcases p with _ | ⟨b, p1⟩
    · simp
    · rcases p1 with _ | ⟨c2, p2⟩
      · simp
      · rcases p2 with _ | ⟨d2, p3⟩
        · simp
        · intro hcc
          apply hcond
          simpa using hcc

theorem stripImg_scan (p : List Char) : ∀ (mid r : List Char),
    hasImgHead p = false → '>' ∉ mid →
    stripImg (p ++ '<' :: 'i' :: 'm' :: 'g' :: (mid ++ '>' :: r)) =
      p ++ stripImg r := by
  induction p with
  | nil =>
    intro mid r _ hm
    simpa using stripImg_tag mid r hm
  | cons a p ih =>
    intro mid r hp hm
    have hp1 : (imgAt (a :: p)).isSome = false ∧ hasImgHead p = false := by
      have : ((imgAt (a :: p)).isSome || hasImgHead p) = false := hp
      simpa using this
    have hnone : imgAt (a :: (p ++ '<' :: 'i' :: 'm' :: 'g' :: (mid ++ '>' :: r))) = none :=
      imgAt_append_none hp1.1 rfl
    rw [List.cons_append, stripImg_cons_none hnone, ih mid r hp1.2 hm]
    rfl

theorem hexVal_hexDigitChar (n : Nat) (h : n < 16) :
    hexVal (hexDigitChar n) = some n := by
  interval_cases n <;> decide

theorem parseStrBody_escChar (c : Char) (l : List Char) :
    parseStrBody (escChar c ++ l) =
      (parseStrBody l).map fun p => (c :: p.1, p.2) := by
  unfold escChar
  split_ifs with h1 h2 h3 h4 h5 h6 h7 h8
  · subst h1; rw [parseStrBody.eq_def]; simp
  · subst h2; rw [parseStrBody.eq_def]; simp
  · subst h3; rw [parseStrBody.eq_def]; simp
  · subst h4; rw [parseStrBody.eq_def]; simp
  · subst h5; rw [parseStrBody.eq_def]; simp
  · subst h6; rw [parseStrBody.eq_def]; simp
  · subst h7; rw [parseStrBody.eq_def]; simp
  · have hd1 : hexVal (hexDigitChar (c.toNat / 16)) = some (c.toNat / 16) :=
      hexVal_hexDigitChar _ (by omega)
    have hd2 : hexVal (hexDigitChar (c.toNat % 16)) = some (c.toNat % 16) :=
      hexVal_hexDigitChar _ (Nat.mod_lt _ (by omega))
    have hchar1 : Char.ofNat (((0 * 16 + 0) * 16 + c.toNat / 16) * 16 + c.toNat % 16) = c := by
      rw [show ((0 * 16 + 0) * 16 + c.toNat / 16) * 16 + c.toNat % 16 = c.toNat by omega,
        Char.ofNat_toNat]
    have hchar2 : Char.ofNat (c.toNat / 16 * 16 + c.toNat % 16) = c := by
      rw [show c.toNat / 16 * 16 + c.toNat % 16 = c.toNat by omega, Char.ofNat_toNat]
    show parseStrBody ('\\' :: 'u' :: '0' :: '0' :: hexDigitChar (c.toNat / 16) ::
        hexDigitChar (c.toNat % 16) :: l) = _
    have h0 : hexVal '0' = some 0 := by decide
    rw [parseStrBody.eq_def]
    simp [hd1, hd2, h0, hchar1, hchar2]
  · show parseStrBody (c :: l) = _
    rw [parseStrBody.eq_def]
    simp only [if_neg h1, if_neg h2]

theorem parseStrBody_quote (s : List Char) (rest : List Char) :
    parseStrBody ((s.map escChar).flatten ++ '"' :: rest) = some (s, rest) := by
  induction s with
  | nil =>
    show parseStrBody ('"' :: rest) = _
    rw [parseStrBody.eq_def]; simp
  | cons c s ih =>
    show parseStrBody ((escChar c ++ (s.map escChar).flatten) ++ '"' :: rest) = _
    rw [List.append_assoc, parseStrBody_escChar, ih]
    rfl

theorem jStr_head (v : Json) : ∃ t, (jStr v = 'n' :: t ∨ jStr v = '"' :: t ∨
    jStr v = '[' :: t ∨ jStr v = '{' :: t) := by
  cases v with
  | null => exact ⟨['u', 'l', 'l'], Or.inl rfl⟩
  | str s => exact ⟨(s.data.map escChar).flatten ++ ['"'], Or.inr (Or.inl (by
      simp [jStr, quoteStr]))⟩
  | arr xs => exact ⟨jStrElems xs ++ [']'], Or.inr (Or.inr (Or.inl (by simp [jStr])))⟩
  | obj kvs => exact ⟨jStrMembs kvs ++ ['}'], Or.inr (Or.inr (Or.inr (by simp [jStr])))⟩

mutual

theorem sizeJ_le_len : ∀ (v : Json), sizeJ v ≤ (jStr v).length
  | .null => by simp [sizeJ, jStr]
  | .str s => by simp [sizeJ, jStr, quoteStr]
  | .arr xs => by
    have h := sizeElems_le_len xs
    simp only [sizeJ, jStr, List.length_cons, List.length_append]
    simp only [List.length_cons, List.length_nil]
    omega
  | .obj kvs => by
    have h := sizeMembs_le_len kvs
    simp only [sizeJ, jStr, List.length_cons, List.length_append]
    simp only [List.length_cons, List.length_nil]
    omega

theorem sizeElems_le_len : ∀ (xs : List Json), sizeElems xs ≤ (jStrElems xs).length + 1
  | [] => by simp [sizeElems, jStrElems]
  | [x] => by
    have h := sizeJ_le_len x
    simp only [sizeElems, jStrElems]
    omega
  | x :: y :: xs => by
    have h1 := sizeJ_le_len x
    have h2 := sizeElems_le_len (y :: xs)
    simp only [sizeElems, jStrElems, List.length_append, List.length_cons]
    simp only [sizeElems] at h2
    omega

theorem sizeMembs_le_len : ∀ (kvs : List (String × Json)),
    sizeMembs kvs ≤ (jStrMembs kvs).length + 1
  | [] => by simp [sizeMembs, jStrMembs]
  | [(k, v)] => by
    have h := sizeJ_le_len v
    simp only [sizeMembs, jStrMembs, List.length_append, List.length_cons]
    omega
  | (k, v) :: m :: kvs => by
    have h1 := sizeJ_le_len v
    have h2 := sizeMembs_le_len (m :: kvs)
    simp only [sizeMembs, jStrMembs, List.length_append, List.length_cons]
    simp only [sizeMembs] at h2
    omega

end

theorem parseVal_quote (f : Nat) (L : List Char) :
    parseVal (f + 1) ('"' :: L) =
      (parseStrBody L).map fun p => (Json.str (String.mk p.1), p.2) := by
  rw [parseVal.eq_def]
  simp

theorem parseVal_null_lit (f : Nat) (rest : List Char) :
    parseVal (f + 1) ('n' :: 'u' :: 'l' :: 'l' :: rest) = some (Json.null, rest) := by
  rw [parseVal.eq_def]
  simp

theorem parseVal_bracket (f : Nat) (c : Char) (t : List Char) (hc : ¬ c = ']') :
    parseVal (f + 1) ('[' :: c :: t) =
      (parseElems f (c :: t)).map fun p => (Json.arr p.1, p.2) := by
  rw [parseVal.eq_def]
  simp [hc]

theorem parseVal_brace (f : Nat) (c : Char) (t : List Char) (hc : ¬ c = '}') :
    parseVal (f + 1) ('{' :: c :: t) =
      (parseMembs f (c :: t)).map fun p => (Json.obj p.1, p.2) := by
  rw [parseVal.eq_def]
  simp [hc]

theorem elems_head_split (x : Json) (xs : List Json) (r : List Char) :
    ∃ c t2, jStrElems (x :: xs) ++ ']' :: r = c :: t2 ∧ ¬ c = ']' := by
  obtain ⟨tH, ht⟩ := jStr_head x
  have hsp : ∃ tE, jStrElems (x :: xs) = jStr x ++ tE := by
    cases xs with
    | nil => exact ⟨[], by simp [jStrElems]⟩
    | cons y ys => exact ⟨',' :: jStrElems (y :: ys), by simp [jStrElems]⟩
  obtain ⟨tE, hE⟩ := hsp
  rcases ht with h | h | h | h
  · exact ⟨'n', tH ++ (tE ++ ']' :: r), by rw [hE, h]; simp, by decide⟩
  · exact ⟨'"', tH ++ (tE ++ ']' :: r), by rw [hE, h]; simp, by decide⟩
  · exact ⟨'[', tH ++ (tE ++ ']' :: r), by rw [hE, h]; simp, by decide⟩
  · exact ⟨'{', tH ++ (tE ++ ']' :: r), by rw [hE, h]; simp, by decide⟩

theorem membs_head_split (k : String) (v : Json) (kvs : List (String × Json))
    (r : List Char) :
    ∃ t2, jStrMembs ((k, v) :: kvs) ++ '}' :: r = '"' :: t2 := by
  have hsp : ∃ tE, jStrMembs ((k, v) :: kvs) = quoteStr k.data ++ tE := by
    cases kvs with
    | nil => exact ⟨':' :: jStr v, by simp [jStrMembs]⟩
    | cons m ms => exact ⟨':' :: jStr v ++ ',' :: jStrMembs (m :: ms), by
        simp [jStrMembs]⟩
  obtain ⟨tE, hE⟩ := hsp
  exact ⟨(k.data.map escChar).flatten ++ ('"' :: (tE ++ '}' :: r)), by
    rw [hE]; simp [quoteStr]⟩

theorem sizeJ_pos (v : Json) : 1 ≤ sizeJ v := by
  cases v <;> simp [sizeJ]

theorem parse_stringify : ∀ fuel : Nat,
    (∀ (v : Json) (rest : List Char), sizeJ v ≤ fuel →
       parseVal fuel (jStr v ++ rest) = some (v, rest)) ∧
    (∀ (xs : List Json) (rest : List Char), xs ≠ [] → sizeElems xs ≤ fuel →
       parseElems fuel (jStrElems xs ++ ']' :: rest) = some (xs, rest)) ∧
    (∀ (kvs : List (String × Json)) (rest : List Char), kvs ≠ [] →
       sizeMembs kvs ≤ fuel →
       parseMembs fuel (jStrMembs kvs ++ '}' :: rest) = some (kvs, rest)) := by
  intro fuel
  induction fuel with
  | zero =>
    refine ⟨?_, ?_, ?_⟩
    · intro v rest hs
      exfalso
      have := sizeJ_pos v
      omega
    · intro xs rest hne hs
      cases xs with
      | nil => exact absurd rfl hne
      | cons x xs =>
        exfalso
        simp [sizeElems] at hs
    · intro kvs rest hne hs
      cases kvs with
      | nil => exact absurd rfl hne
      | cons kv kvs =>
        exfalso
        simp [sizeMembs] at hs
  | succ f ih =>
    obtain ⟨ihV, ihE, ihM⟩ := ih
    refine ⟨?_, ?_, ?_⟩
    · intro v rest hs
      cases v with
      | null =>
        show parseVal (f + 1) ('n' :: 'u' :: 'l' :: 'l' :: rest) = _
        exact parseVal_null_lit f rest
      | str s =>
        have hshape : jStr (Json.str s) ++ rest =
            '"' :: ((s.data.map escChar).flatten ++ '"' :: rest) := by
          simp [jStr, quoteStr]
        rw [hshape, parseVal_quote, parseStrBody_quote]
        rfl
      | arr xs =>
        cases xs with
        | nil =>
          show parseVal (f + 1) ('[' :: ']' :: rest) = _
          rw [parseVal.eq_def]
          simp
        | cons x xs =>
          have hsize : sizeElems (x :: xs) ≤ f := by
            simp only [sizeJ] at hs
            omega
          have hshape : jStr (Json.arr (x :: xs)) ++ rest =
              '[' :: (jStrElems (x :: xs) ++ ']' :: rest) := by
            simp [jStr]
          obtain ⟨c, t2, hsplit, hcne⟩ := elems_head_split x xs rest
          rw [hshape, hsplit, parseVal_bracket f c t2 hcne, ← hsplit,
            ihE (x :: xs) rest (by simp) hsize]
          rfl
      | obj kvs =>
        cases kvs with
        | nil =>
          show parseVal (f + 1) ('{' :: '}' :: rest) = _
          rw [parseVal.eq_def]
          simp
        | cons kv kvs =>
          obtain ⟨k, v⟩ := kv
          have hsize : sizeMembs ((k, v) :: kvs) ≤ f := by
            simp only [sizeJ] at hs
            omega
          have hshape : jStr (Json.obj ((k, v) :: kvs)) ++ rest =
              '{' :: (jStrMembs ((k, v) :: kvs) ++ '}' :: rest) := by
            simp [jStr]
          obtain ⟨t2, hsplit⟩ := membs_head_split k v kvs rest
          rw [hshape, hsplit, parseVal_brace f '"' t2 (by decide), ← hsplit,
            ihM ((k, v) :: kvs) rest (by simp) hsize]
          rfl
    · intro xs rest hne hs
      cases xs with
      | nil => exact absurd rfl hne
      | cons x xs =>
        cases xs with
        | nil =>
          have hs1 : sizeJ x ≤ f := by
            simp [sizeElems] at hs
            omega
          have hshape : jStrElems [x] ++ ']' :: rest = jStr x ++ ']' :: rest := by
            simp [jStrElems]
          have e1 := ihV x (']' :: rest) hs1
          rw [hshape, parseElems.eq_def]
          simp only [e1, Option.map_some]
        | cons y ys =>
          have hs1 : sizeJ x ≤ f := by
            simp [sizeElems] at hs
            omega
          have hs2 : sizeElems (y :: ys) ≤ f := by
            simp only [sizeElems] at hs ⊢
            omega
          have hshape : jStrElems (x :: y :: ys) ++ ']' :: rest =
              jStr x ++ (',' :: (jStrElems (y :: ys) ++ ']' :: rest)) := by
            simp [jStrElems]
          have e1 := ihV x (',' :: (jStrElems (y :: ys) ++ ']' :: rest)) hs1
          have e2 := ihE (y :: ys) rest (by simp) hs2
          rw [hshape, parseElems.eq_def]
          simp only [e1, e2, Option.map_some]
          rfl
    · intro kvs rest hne hs
      cases kvs with
      | nil => exact absurd rfl hne
      | cons kv kvs =>
        obtain ⟨k, v⟩ := kv
        have hk : String.mk k.data = k := rfl
        cases kvs with
        | nil =>
          have hs1 : sizeJ v ≤ f := by
            simp [sizeMembs] at hs
            omega
          have hshape : jStrMembs [(k, v)] ++ '}' :: rest =
              '"' :: ((k.data.map escChar).flatten ++ '"' ::
                (':' :: (jStr v ++ '}' :: rest))) := by
            simp [jStrMembs, quoteStr]
          have e0 := parseStrBody_quote k.data (':' :: (jStr v ++ '}' :: rest))
          have e1 := ihV v ('}' :: rest) hs1
          rw [hshape, parseMembs.eq_def]
          simp only [e0, e1, hk, Option.map_some]
        | cons m ms =>
          have hs1 : sizeJ v ≤ f := by
            simp [sizeMembs] at hs
            omega
          have hs2 : sizeMembs (m :: ms) ≤ f := by
            simp only [sizeMembs] at hs ⊢
            omega
          have hshape : jStrMembs ((k, v) :: m :: ms) ++ '}' :: rest =
              '"' :: ((k.data.map escChar).flatten ++ '"' ::
                (':' :: (jStr v ++ ',' :: (jStrMembs (m :: ms) ++ '}' :: rest)))) := by
            simp [jStrMembs, quoteStr]
          have e0 := parseStrBody_quote k.data
            (':' :: (jStr v ++ ',' :: (jStrMembs (m :: ms) ++ '}' :: rest)))
          have e1 := ihV v (',' :: (jStrMembs (m :: ms) ++ '}' :: rest)) hs1
          have e2 := ihM (m :: ms) rest (by simp) hs2
          rw [hshape, parseMembs.eq_def]
          simp only [e0, e1, e2, hk, Option.map_some]
          rfl

theorem jsonParse_jsonStringify (v : Json) : jsonParse (jsonStringify v) = some v := by
  have hlen : sizeJ v ≤ (jStr v).length + 1 := by
    have := sizeJ_le_len v
    omega
  have h := (parse_stringify ((jStr v).length + 1)).1 v [] hlen
  rw [List.append_nil] at h
  unfold jsonParse
  have hd : (jsonStringify v).data = jStr v := rfl
  rw [hd, h]

/-! ## Claim theorems -/

/-- C1: when a successful response carries both a non-empty table and a
non-blank reply, only the table is rendered and the reply is ignored: the
call appends exactly the user bubble and the wage-table card to the log —
no text bubble for the reply, so at most one terminal rendering action
happens for the response.  (Stated for quiescent states: a live session
and no transient typing message in the log.) -/
theorem table_precedence (now : Nat) (d : ChatData) (st : ChatState) (sid : String)
    (t : List (List String)) (r : String)
    (hsid : st.sessionId = some sid) (htrim : ¬ trimString st.inputValue = "")
    (htyping : typingCount st.chatBox = 0)
    (htable : d.table = some t) (hlen : t.length > 0)
    (_hreply : d.reply = some r) (_hr : ¬ trimString r = "") :
    (sendChatMessage now (NetOutcome.ok d) st).chatBox =
      st.chatBox ++
        [Entry.msg .user (processContent (trimString st.inputValue)) none,
         Entry.card t d.meta (jsonStringify (jsonOfTable t))
           (jsonStringify (metaJsonOpt d.meta))] := by
  rw [sendMessage_ok_spec now d st sid hsid htrim htyping]
  simp only [htable]
  rw [if_pos hlen]
  simp [addTableToChat, postSendState]

theorem table_precedence_witness :
    (¬ trimString " hi " = "" ∧
     (2 : Nat) > 0 ∧
     ¬ trimString "a reply too" = "") ∧
    (sendChatMessage 3
      (NetOutcome.ok { table := some [["State", "Rate"], ["Delhi", "500"]],
                       reply := some "a reply too", meta := none })
      { chatBox := [], sessionId := some "session_1", categoryShown := true,
        inputValue := " hi ", requests := [] }).chatBox =
      ([] : List Entry) ++
        [Entry.msg .user (processContent (trimString " hi ")) none,
         Entry.card [["State", "Rate"], ["Delhi", "500"]] none
           (jsonStringify (jsonOfTable [["State", "Rate"], ["Delhi", "500"]]))
           (jsonStringify (metaJsonOpt none))] :=
  ⟨⟨by decide, by decide, by decide⟩,
   table_precedence 3
     { table := some [["State", "Rate"], ["Delhi", "500"]],
       reply := some "a reply too", meta := none }
     { chatBox := [], sessionId := some "session_1", categoryShown := true,
       inputValue := " hi ", requests := [] }
     "session_1" [["State", "Rate"], ["Delhi", "500"]] "a reply too"
     rfl (by decide) rfl rfl (by decide) rfl (by decide)⟩

/-- C2: every completed send of input that is non-empty after trimming —
whether the remote call succeeds with any payload or fails in any way —
appends exactly one user message and leaves zero transient typing messages
in the visible log.  (Stated for quiescent states: a live session and no
transient typing message before the call.) -/
theorem sendMessage_user_once_no_typing (now : Nat) (outcome : NetOutcome)
    (st : ChatState) (sid : String)
    (hsid : st.sessionId = some sid) (htrim : ¬ trimString st.inputValue = "")
    (htyping : typingCount st.chatBox = 0) :
    userCount (sendChatMessage now outcome st).chatBox = userCount st.chatBox + 1 ∧
    typingCount (sendChatMessage now outcome st).chatBox = 0 := by
  have hpost : typingCount (postSendState st sid).chatBox = 0 := by
    rw [typingCount_postSend]; exact htyping
  cases outcome with
  | ok d =>
    rw [sendMessage_ok_spec now d st sid hsid htrim htyping]
    rcases ht : d.table with _ | t
    · simp only [ht]
      refine ⟨?_, (counts_routeReply d _ hpost).2⟩
      rw [(counts_routeReply d _ hpost).1, userCount_postSend]
    · simp only [ht]
      by_cases hl : t.length > 0
      · rw [if_pos hl]
        refine ⟨?_, (counts_addTable t d.meta _ hpost).2⟩
        rw [(counts_addTable t d.meta _ hpost).1, userCount_postSend]
      · rw [if_neg hl]
        refine ⟨?_, (counts_routeReply d _ hpost).2⟩
        rw [(counts_routeReply d _ hpost).1, userCount_postSend]
  | netError =>
    rw [sendMessage_catch_spec now _ st sid (Or.inl rfl) hsid htrim htyping]
    refine ⟨?_, (counts_addBotMsg apology none rfl _ hpost).2⟩
    rw [(counts_addBotMsg apology none rfl _ hpost).1, userCount_postSend]
  | badStatus =>
    rw [sendMessage_catch_spec now _ st sid (Or.inr (Or.inl rfl)) hsid htrim htyping]
    refine ⟨?_, (counts_addBotMsg apology none rfl _ hpost).2⟩
    rw [(counts_addBotMsg apology none rfl _ hpost).1, userCount_postSend]
  | parseError =>
    rw [sendMessage_catch_spec now _ st sid (Or.inr (Or.inr rfl)) hsid htrim htyping]
    refine ⟨?_, (counts_addBotMsg apology none rfl _ hpost).2⟩
    rw [(counts_addBotMsg apology none rfl _ hpost).1, userCount_postSend]

theorem sendMessage_user_once_no_typing_witness :
    (¬ trimString "wage rates" = "" ∧
     typingCount ([Entry.msg .bot greeting none]) = 0) ∧
    (userCount (sendChatMessage 9 NetOutcome.netError
      { chatBox := [Entry.msg .bot greeting none], sessionId := some "session_9",
        categoryShown := false, inputValue := "wage rates",
        requests := [] }).chatBox =
      userCount [Entry.msg .bot greeting none] + 1 ∧
     typingCount (sendChatMessage 9 NetOutcome.netError
      { chatBox := [Entry.msg .bot greeting none], sessionId := some "session_9",
        categoryShown := false, inputValue := "wage rates",
        requests := [] }).chatBox = 0) :=
  ⟨⟨by decide, by decide⟩,
   sendMessage_user_once_no_typing 9 NetOutcome.netError
     { chatBox := [Entry.msg .bot greeting none], sessionId := some "session_9",
       categoryShown := false, inputValue := "wage rates", requests := [] }
     "session_9" rfl (by decide) (by decide)⟩

theorem routeReply_blank (d : ChatData) (st : ChatState)
    (hreply : trimString (d.reply.getD "") = "") : routeReply d st = st := by
  rcases hr : d.reply with _ | r
  · simp only [routeReply, hr]
  · rw [hr] at hreply
    simp only [Option.getD_some] at hreply
    simp only [routeReply, hr]
    rw [if_neg (by simpa using hreply)]

/-- C3 counterexample: on a successful-status response whose body fails to
parse as JSON, `response.json()` rejects inside the `try`, so the `catch`
removes the typing indicator and renders the fixed apology bubble.  The
claim says such a turn renders no message and surfaces no error; at this
concrete input the completed log visibly ends with the apology message. -/
theorem malformed_silent_counterexample :
    (sendChatMessage 0 NetOutcome.parseError
      { chatBox := [Entry.msg .bot greeting none], sessionId := some "session_0",
        categoryShown := false, inputValue := "hello", requests := [] }).chatBox =
      [Entry.msg .bot greeting none, Entry.msg .user "hello" none,
       Entry.msg .bot apology none] := by
  decide

/-- C3 amended: a successful-status response that parses but matches
neither the reply shape (a non-blank `reply` string) nor the table shape
(a non-empty `table`) is treated as a silent empty turn — only the user
bubble is appended, no message is rendered for it and no error is
surfaced.  A body that fails to parse as JSON is instead handled like a
transport failure: the typing indicator is removed and the fixed apology
message is rendered. -/
theorem malformed_amended (now : Nat) (d : ChatData) (st : ChatState) (sid : String)
    (hsid : st.sessionId = some sid) (htrim : ¬ trimString st.inputValue = "")
    (htyping : typingCount st.chatBox = 0)
    (htable : d.table.getD [] = []) (hreply : trimString (d.reply.getD "") = "") :
    (sendChatMessage now (NetOutcome.ok d) st).chatBox =
      st.chatBox ++
        [Entry.msg .user (processContent (trimString st.inputValue)) none] ∧
    (sendChatMessage now NetOutcome.parseError st).chatBox =
      st.chatBox ++
        [Entry.msg .user (processContent (trimString st.inputValue)) none,
         Entry.msg .bot apology none] := by
  have hpost : typingCount (postSendState st sid).chatBox = 0 := by
    rw [typingCount_postSend]; exact htyping
  constructor
  · rw [sendMessage_ok_spec now d st sid hsid htrim htyping]
    rcases ht : d.table with _ | t
    · simp only [ht]
      rw [routeReply_blank d _ hreply]
      simp [postSendState]
    · rw [ht] at htable
      simp only [Option.getD_some] at htable
      subst htable
      simp only [ht]
      rw [if_neg (by simp)]
      rw [routeReply_blank d _ hreply]
      simp [postSendState]
  · rw [sendMessage_catch_spec now _ st sid (Or.inr (Or.inr rfl)) hsid htrim htyping]
    simp only [addMessageToChatbox]
    rw [if_pos (by simp), removeTyping_of_no_typing hpost]
    have hap : processContent apology = apology := rfl
    rw [hap]
    simp [postSendState]

theorem malformed_amended_witness :
    ((some ([] : List (List String))).getD [] = [] ∧
     trimString ((some "   ").getD "") = "") ∧
    ((sendChatMessage 4 (NetOutcome.ok { table := some [], reply := some "   ",
                                         meta := none })
      { chatBox := [Entry.msg .bot greeting none], sessionId := some "session_4",
        categoryShown := false, inputValue := "hi", requests := [] }).chatBox =
      [Entry.msg .bot greeting none] ++
        [Entry.msg .user (processContent (trimString "hi")) none] ∧
     (sendChatMessage 4 NetOutcome.parseError
      { chatBox := [Entry.msg .bot greeting none], sessionId := some "session_4",
        categoryShown := false, inputValue := "hi", requests := [] }).chatBox =
      [Entry.msg .bot greeting none] ++
        [Entry.msg .user (processContent (trimString "hi")) none,
         Entry.msg .bot apology none]) :=
  ⟨⟨by decide, by decide⟩,
   malformed_amended 4
     { table := some [], reply := some "   ", meta := none }
     { chatBox := [Entry.msg .bot greeting none], sessionId := some "session_4",
       categoryShown := false, inputValue := "hi", requests := [] }
     "session_4" rfl (by decide) (by decide) (by decide) (by decide)⟩

/-- C4: for every input string that is empty or whitespace-only after
trimming, `sendChatMessage` is a silent no-op: it returns the state
unchanged, so no message is appended, no request is issued, and nothing
else observable changes — whatever the outcome parameter would have been. -/
theorem sendMessage_blank_noop (now : Nat) (outcome : NetOutcome) (st : ChatState)
    (h : trimString st.inputValue = "") : sendChatMessage now outcome st = st := by
  unfold sendChatMessage
  simp [h]

theorem sendMessage_blank_noop_witness :
    trimString "   " = "" ∧
    sendChatMessage 7 NetOutcome.netError
      { chatBox := [], sessionId := none, categoryShown := true,
        inputValue := "   ", requests := [] } =
      { chatBox := [], sessionId := none, categoryShown := true,
        inputValue := "   ", requests := [] } :=
  ⟨by decide, sendMessage_blank_noop 7 NetOutcome.netError _ (by decide)⟩

/-- C8: every call of `startNewSession` leaves the chat box holding exactly
the one bot greeting bubble (hence no transient typing message), overwrites
the session id with the one minted from the current clock, and re-shows the
category quick-action controls — regardless of the prior state. -/
theorem startNewSession_spec (now : Nat) (st : ChatState) :
    (startNewSession now st).chatBox = [Entry.msg .bot greeting none] ∧
    (startNewSession now st).sessionId = some ("session_" ++ toString now) ∧
    (startNewSession now st).categoryShown = true ∧
    typingCount (startNewSession now st).chatBox = 0 ∧
    userCount (startNewSession now st).chatBox = 0 := by
  refine ⟨?_, rfl, rfl, ?_, ?_⟩
  · show [] ++ [Entry.msg .bot (processContent greeting) none] = _
    have : processContent greeting = greeting := by rfl
    rw [this]; rfl
  · show typingCount ([] ++ [Entry.msg .bot (processContent greeting) none]) = 0
    rfl
  · show userCount ([] ++ [Entry.msg .bot (processContent greeting) none]) = 0
    rfl

/-- C7: the export filename is a pure function of `meta`: with a meta
carrying a state it is `Wage_Details_` + state + `.pdf` (so identical input
always yields the identical name, and every completed run saves under that
name); with no meta it is the fixed fallback `Wage_Details_.pdf`.  For
`meta.state = "Delhi"` the saved name is `Wage_Details_Delhi.pdf`. -/
theorem pdfFileName_deterministic (t : List (List String)) (m : Meta) (fy : Nat)
    (hstate : m.state = "Delhi") :
    (downloadTableAsPDF t (some m) fy (fun _ => false)).executed.getLast? =
      some (PdfOp.save "Wage_Details_Delhi.pdf") ∧
    (∀ m2 : Meta, pdfFileName (some m2) = "Wage_Details_" ++ m2.state ++ ".pdf") ∧
    pdfFileName none = "Wage_Details_.pdf" := by
  refine ⟨?_, fun m2 => rfl, rfl⟩
  simp only [downloadTableAsPDF]
  rw [runOpsAux_noThrow (fun _ => false) (fun _ => rfl)]
  simp only [if_neg (by simp : ¬((exportOps t (some m) fy, false).2 = true))]
  show (exportOps t (some m) fy).getLast? = _
  rw [exportOps, List.getLast?_append_of_ne_nil _ (by simp)]
  simp [pdfFileName, hstate]

theorem pdfFileName_deterministic_witness :
    ({ state := "Delhi", act_name := "Minimum Wages Act", da := "0",
       effective_from := "2024-04-01", pdf_url := none } : Meta).state = "Delhi" ∧
    (downloadTableAsPDF [["State", "Rate"], ["Delhi", "500"]]
      (some { state := "Delhi", act_name := "Minimum Wages Act", da := "0",
              effective_from := "2024-04-01", pdf_url := none }) 90
      (fun _ => false)).executed.getLast? = some (PdfOp.save "Wage_Details_Delhi.pdf") :=
  ⟨rfl, (pdfFileName_deterministic _ _ 90 rfl).1⟩

/-- C5: if any drawing or layout call of a `downloadTableAsPDF` run throws,
the run is all-or-nothing: no `doc.save` call is ever reached (no file is
offered under any name), the error is logged once, and exactly one
user-visible alert is raised. -/
theorem export_all_or_nothing (t : List (List String)) (m : Option Meta)
    (fy : Nat) (f : Nat → Bool) (i : Nat)
    (hi : i < (exportDrawOps t m fy).length) (hf : f i = true) :
    (∀ s, PdfOp.save s ∉ (downloadTableAsPDF t m fy f).executed) ∧
    (downloadTableAsPDF t m fy f).alerts = 1 ∧
    (downloadTableAsPDF t m fy f).errorsLogged = 1 := by
  have hlen : i < (exportOps t m fy).length := by
    rw [exportOps, List.length_append]
    omega
  have hthrew : (runOpsAux f 0 (exportOps t m fy)).2 = true :=
    runOpsAux_threw f _ 0 ⟨i, hlen, by simpa using hf⟩
  have hres : downloadTableAsPDF t m fy f =
      { executed := (runOpsAux f 0 (exportOps t m fy)).1, alerts := 1, errorsLogged := 1 } := by
    simp only [downloadTableAsPDF]
    rw [if_pos hthrew]
  rw [hres]
  refine ⟨?_, rfl, rfl⟩
  intro s hmem
  have := runOpsAux_mem_of_threw f (exportOps t m fy) 0 (PdfOp.save s) hthrew hmem
  rw [exportOps, List.dropLast_concat] at this
  exact save_not_mem_drawOps t m fy s this

theorem export_all_or_nothing_witness :
    (0 < (exportDrawOps [["h"], ["r"]] none 40).length ∧
      (fun k => decide (k = 0)) 0 = true) ∧
    ((∀ s, PdfOp.save s ∉
        (downloadTableAsPDF [["h"], ["r"]] none 40 (fun k => decide (k = 0))).executed) ∧
      (downloadTableAsPDF [["h"], ["r"]] none 40 (fun k => decide (k = 0))).alerts = 1 ∧
      (downloadTableAsPDF [["h"], ["r"]] none 40 (fun k => decide (k = 0))).errorsLogged = 1) :=
  ⟨⟨by decide, by decide⟩,
    export_all_or_nothing [["h"], ["r"]] none 40 (fun k => decide (k = 0)) 0
      (by decide) (by decide)⟩

/-- C10: exporting a table of at least one row with absent (null) meta
completes without error: the whole metadata block is skipped (no meta call
appears in the trace), the table and the disclaimer are still drawn, the
file is saved under the fallback name `Wage_Details_.pdf`, and no alert or
logged error occurs — null meta never reaches an unguarded field access. -/
theorem export_null_meta_ok (row : List String) (rest : List (List String))
    (fy : Nat) (f : Nat → Bool) (hf : ∀ k, f k = false) :
    downloadTableAsPDF (row :: rest) none fy f =
      { executed := [PdfOp.setFontSize 18, PdfOp.setTextColor 0 100 0,
          PdfOp.text companyTitle 14 12, PdfOp.setFontSize 15,
          PdfOp.setTextColor 0 0 0, PdfOp.text reportTitle 14 22,
          PdfOp.autoTable [row] rest 30 9 (16, 185, 129),
          PdfOp.setFontSize 10, PdfOp.setTextColor 180 0 0,
          PdfOp.textWrapped disclaimer 14 (fy + 12) 180,
          PdfOp.save "Wage_Details_.pdf"],
        alerts := 0, errorsLogged := 0 } := by
  simp only [downloadTableAsPDF]
  rw [runOpsAux_noThrow f hf]
  simp only [if_neg (by simp : ¬((exportOps (row :: rest) none fy, false).2 = true))]
  rfl

theorem export_null_meta_ok_witness :
    (∀ k, (fun _ : Nat => false) k = false) ∧
    downloadTableAsPDF [["State", "Rate"], ["Delhi", "500"]] none 90 (fun _ => false) =
      { executed := [PdfOp.setFontSize 18, PdfOp.setTextColor 0 100 0,
          PdfOp.text companyTitle 14 12, PdfOp.setFontSize 15,
          PdfOp.setTextColor 0 0 0, PdfOp.text reportTitle 14 22,
          PdfOp.autoTable [["State", "Rate"]] [["Delhi", "500"]] 30 9 (16, 185, 129),
          PdfOp.setFontSize 10, PdfOp.setTextColor 180 0 0,
          PdfOp.textWrapped disclaimer 14 (90 + 12) 180,
          PdfOp.save "Wage_Details_.pdf"],
        alerts := 0, errorsLogged := 0 } :=
  ⟨fun _ => rfl, export_null_meta_ok ["State", "Rate"] [["Delhi", "500"]] 90
    (fun _ => false) (fun _ => rfl)⟩

/-- C6 counterexample: the strip is a single regex pass, so an img tag can
survive in the displayed text when its characters reassemble around a
removed match.  For the reply `<i<img>mg>` the input contains an img-tag
match, and the rendered content is exactly `<img>` — an inline image tag
that reaches the display, contradicting the claim that every substring
matching an img element is stripped before display. -/
theorem img_strip_counterexample :
    hasImgTag ("<i<img>mg>".data) = true ∧
    processContent "<i<img>mg>" = "<img>" ∧
    hasImgTag (processContent "<i<img>mg>").data = true := by
  refine ⟨by decide, by decide, by decide⟩

/-- C6 amended: the renderer displays `text` with one left-to-right pass of
`replace(/<img[^>]*>/g, '')` applied and then trimmed: any text (markup
included) up to the first img-tag match passes through unchanged, each
leftmost match `<img` + non-gt run + `>` is removed whole, and scanning
resumes after the match — but only matches present in that single pass are
stripped, so a tag reassembled from the text surrounding a removed match
can survive to the display. -/
theorem img_strip_amended :
    (∀ (text : String) (sender : Sender) (id : Option String) (st : ChatState),
       (addMessageToChatbox text sender id st).chatBox.getLast? =
         some (Entry.msg sender (String.mk (trimChars (stripImg text.data))) id)) ∧
    (∀ (p mid r : List Char), hasImgHead p = false → '>' ∉ mid →
       stripImg (p ++ '<' :: 'i' :: 'm' :: 'g' :: (mid ++ '>' :: r)) =
         p ++ stripImg r) := by
  constructor
  · intro text sender id st
    simp [addMessageToChatbox, processContent]
  · exact fun p mid r hp hm => stripImg_scan p mid r hp hm

theorem img_strip_amended_witness :
    (hasImgHead ("<b>hello</b> ".data) = false ∧ '>' ∉ (" src=x".data)) ∧
    stripImg ("<b>hello</b> ".data ++ '<' :: 'i' :: 'm' :: 'g' ::
        (" src=x".data ++ '>' :: " <p>tail</p>".data)) =
      "<b>hello</b> ".data ++ stripImg (" <p>tail</p>".data) :=
  ⟨⟨by decide, by decide⟩,
   img_strip_amended.2 ("<b>hello</b> ".data) (" src=x".data) (" <p>tail</p>".data)
     (by decide) (by decide)⟩

/-- C9: the serialize-at-render / deserialize-at-click round trip of the
PDF button is the identity: the card appended by `addTableToChat` captures
`JSON.stringify` of the exact table payload and meta it was rendered with,
and triggering the export action later hands `downloadTableAsPDF` the
`JSON.parse` of those datasets, which is exactly the table (array of
arrays of strings) and the meta object (or JSON null for absent meta)
captured at render time — later mutation cannot be reflected since the
captured datasets are strings fixed at render. -/
theorem dataset_roundtrip :
    (∀ (t : List (List String)) (m : Option Meta) (st : ChatState),
       (addTableToChat t m st).chatBox.getLast? =
         some (Entry.card t m (jsonStringify (jsonOfTable t))
           (jsonStringify (metaJsonOpt m)))) ∧
    (∀ (t : List (List String)) (m : Option Meta),
       pdfClickArgs (Entry.card t m (jsonStringify (jsonOfTable t))
           (jsonStringify (metaJsonOpt m))) =
         some (some (jsonOfTable t), some (metaJsonOpt m))) := by
  constructor
  · intro t m st
    simp [addTableToChat]
  · intro t m
    simp [pdfClickArgs, jsonParse_jsonStringify]

end Chatbot
